import Mathlib

/-!
Verification of `tanshin_lib` (financial-table interpretation library).

This file shallowly embeds the table-interpretation pipeline of
`src/tanshin_lib/financial_analyzer.py` (`parse_financial_table` and its
helpers) and the multiline expander of `src/tanshin_lib/pdf_parser.py`
(`expand_multiline_table`), and proves/refutes the frozen claims about them.

Modelling conventions:
* Python strings are `List Char` (`Str`); `str s` injects a Lean string
  literal.  All Python string primitives used by the code (`strip`, `lower`,
  `replace`, `in`, `split`) are given executable embeddings below.
* The regular expressions in the source are each embedded as a dedicated
  deterministic matcher.  Every pattern used by the code has disjoint
  character classes at each choice point, so Python's leftmost/greedy
  backtracking semantics coincide with the deterministic matchers (argued
  at each definition).
* Python `\s` / `str.strip()` accept all Unicode whitespace; the model
  covers the ASCII whitespace characters plus U+3000 and U+00A0 (the ones
  occurring in this domain).  `\d` beyond ASCII digits (full-width digits)
  is not modelled; `[0-9]` in the source is ASCII-only and exact.
* Floats: the only float computation is `float(s)` on a comma-stripped
  numeric literal.  The value is kept as its literal string
  (`CVal.num lit`); whether `float` raises `ValueError` is modelled
  exactly (`floatOk`).  No claim depends on float rounding.
* pandas: `df.iloc[r, c]` is `iloc`; `len(df.columns)` is the explicit
  `ncols` parameter; a `DataFrame` row read with `row[0]` / iteration is
  the raw cell list.  Cells absent from a short row behave as the empty
  string, which is observationally equal to the `"nan"` a ragged
  `DataFrame` would yield: both are filtered in header concatenation and
  classified as null in the row interpreter.
-/

abbrev Str := List Char

/-- Inject a Lean string literal as a Python-style character list. -/
def str (s : String) : Str := s.data

/-- Python whitespace (`str.strip`, regex `\s`): ASCII whitespace plus the
full-width space U+3000 and NBSP U+00A0 that occur in this domain. -/
def pySpace (c : Char) : Bool :=
  c = ' ' || c = '\t' || c = '\n' || c = '\r' || c = '\x0b' || c = '\x0c' ||
  c = '　' || c = ' '

/-- Python `str.strip()`. -/
def pyStrip (l : Str) : Str :=
  ((l.dropWhile pySpace).reverse.dropWhile pySpace).reverse

/-- Python `str.lower()` (ASCII case folding; the code only compares the
result against `"nan"`). -/
def pyLower (l : Str) : Str := l.map Char.toLower

/-- Python `s.replace(pat, rep)` for a single-character pattern: `rep` is
`some c` for a one-character replacement and `none` for deletion.  A
single-character replace is exactly a per-character map/filter. -/
def pyReplaceChar (pat : Char) (rep : Option Char) (l : Str) : Str :=
  l.filterMap (fun c => if c = pat then rep else some c)

/-- Fuel-driven core of multi-character `str.replace`: scans left to right,
replaces non-overlapping occurrences, never rescans the replacement (exactly
CPython semantics).  The fuel only serves structural termination; it is
always called with fuel = length of the scanned list, which suffices since
every step consumes at least one character. -/
def replaceSubAux (pat rep : Str) : Nat → Str → Str
  | 0, s => s
  | _ + 1, [] => []
  | f + 1, c :: rest =>
    if pat ≠ [] ∧ pat.isPrefixOf (c :: rest) then
      rep ++ replaceSubAux pat rep f (rest.drop (pat.length - 1))
    else
      c :: replaceSubAux pat rep f rest

/-- Python `s.replace(pat, rep)` for a multi-character pattern. -/
def replaceSub (pat rep s : Str) : Str := replaceSubAux pat rep s.length s

/-- Python substring containment `pat in l`. -/
def isSubstr (pat : Str) : Str → Bool
  | [] => decide (pat = [])
  | c :: t => pat.isPrefixOf (c :: t) || isSubstr pat t

/-- Python `s.split(given one-character separator)`: always returns at least
one (possibly empty) segment. -/
def splitNl : Str → List Str
  | [] => [[]]
  | c :: rest =>
    match splitNl rest with
    | [] => [[c]]
    | s :: ss => if c = '\n' then [] :: s :: ss else (c :: s) :: ss

/-- Cell normalization of the row interpreter
(`financial_analyzer.py:148-149`):
`.replace('△','-').replace('▲','-').replace('－','-')
 .replace('＋','').replace('+','').replace('～','~')`, innermost first. -/
def pyNorm (l : Str) : Str :=
  pyReplaceChar '～' (some '~')
    (pyReplaceChar '+' none
      (pyReplaceChar '＋' none
        (pyReplaceChar '－' (some '-')
          (pyReplaceChar '▲' (some '-')
            (pyReplaceChar '△' (some '-') l)))))

/-- The per-character effect of the six chained replaces of `pyNorm`. -/
def normF (c : Char) : Option Char :=
  if c = '△' then some '-'
  else if c = '▲' then some '-'
  else if c = '－' then some '-'
  else if c = '＋' then none
  else if c = '+' then none
  else if c = '～' then some '~'
  else some c

theorem pyNorm_eq_filterMap (l : Str) : pyNorm l = l.filterMap normF := by
  unfold pyNorm pyReplaceChar
  simp only [List.filterMap_filterMap]
  apply List.filterMap_congr
  intro c _
  by_cases h1 : c = '△' <;> by_cases h2 : c = '▲' <;> by_cases h3 : c = '－' <;>
    by_cases h4 : c = '＋' <;> by_cases h5 : c = '+' <;> by_cases h6 : c = '～' <;>
    simp [normF, h1, h2, h3, h4, h5, h6, Option.bind]

/-! ### Deterministic embeddings of the regular expressions of the source -/

/-- Character class `[0-9,.]` of the range/number patterns. -/
def numCl (c : Char) : Bool := c.isDigit || c = ',' || c = '.'

/-- Leading match of `([-]?[0-9,.]+)`: returns the matched token (sign
included, as the capture group does) and the rest.  No backtracking is
possible: `-` is not in `[0-9,.]`, so if the sign is taken and no class
character follows, the signless alternative fails at the same character. -/
def pNum (l : Str) : Option (Str × Str) :=
  match l with
  | [] => none
  | c :: t =>
    if c = '-' then
      if t.takeWhile numCl = [] then none
      else some ('-' :: t.takeWhile numCl, t.dropWhile numCl)
    else
      if (c :: t).takeWhile numCl = [] then none
      else some ((c :: t).takeWhile numCl, (c :: t).dropWhile numCl)

/-- Greedy `\s*`. -/
def pSpaces (l : Str) : Str := l.dropWhile pySpace

/-- Range separator class `[~-]`. -/
def rangeSep (c : Char) : Bool := c = '~' || c = '-'

/-- Anchored match of `([-]?[0-9,.]+)\s*[~-]\s*([-]?[0-9,.]+)` at the head
of the list (the tail after the match is unconstrained, as in `re.search`).
The classes `[0-9,.]`, `\s` and `[~-]` are pairwise disjoint, so greedy
munching is exact. -/
def fullRangeAt (l : Str) : Option (Str × Str) :=
  match pNum l with
  | none => none
  | some (a, r1) =>
    match pSpaces r1 with
    | [] => none
    | c :: r3 =>
      if rangeSep c then
        match pNum (pSpaces r3) with
        | some (b, _) => some (a, b)
        | none => none
      else none

/-- Embedding of `re.search` for the full-range pattern
NUM-SEP-NUM (`financial_analyzer.py:156`): leftmost starting position
wins. -/
def fullRangeSearch : Str → Option (Str × Str)
  | [] => none
  | c :: t =>
    match fullRangeAt (c :: t) with
    | some ab => some ab
    | none => fullRangeSearch t

/-- Embedding of the `re.fullmatch` for NUM-SEP (`financial_analyzer.py:163`):
a dangling range start.  Returns the captured number. -/
def rangeStartFM (l : Str) : Option Str :=
  match pNum l with
  | none => none
  | some (a, r) =>
    match pSpaces r with
    | [c] => if rangeSep c then some a else none
    | _ => none

/-- Embedding of the bare-number `re.fullmatch` (`financial_analyzer.py:170`),
also used at `financial_analyzer.py:189` — the two patterns are
identical. -/
def plainFM (l : Str) : Option Str :=
  match pNum l with
  | none => none
  | some (a, r) => if r = [] then some a else none

/-- Embedding of the `re.fullmatch` for SEP-NUM (`financial_analyzer.py:178`):
a dangling range end.  Returns the captured number. -/
def rangeEndFM (l : Str) : Option Str :=
  match l with
  | [] => none
  | c :: r =>
    if rangeSep c then
      match pNum (pSpaces r) with
      | some (b, rest) => if rest = [] then some b else none
      | none => none
    else none

/-- Embedding of the decimal-number `re.fullmatch` (`financial_analyzer.py:38`,
and `pdf_parser.py:184,191` with anchors): an optionally-signed decimal
number with optional percent sign.  If the `.` is not followed by a digit
the optional group fails and the match must end there, so it fails. -/
def numPercentFM (l : Str) : Bool :=
  let core := match l with | '-' :: t => t | _ => l
  let ds := core.takeWhile Char.isDigit
  let r := core.dropWhile Char.isDigit
  if ds = [] then false
  else
    let r2 := match r with
      | '.' :: t => if t.takeWhile Char.isDigit = [] then r else t.dropWhile Char.isDigit
      | _ => r
    match r2 with
    | [] => true
    | [c] => c = '%'
    | _ => false

/-- Embedding of the percent-only `re.fullmatch` (`financial_analyzer.py:72`):
a pure percent marker, possibly parenthesized. -/
def percentOnlyFM (l : Str) : Bool :=
  match l.dropWhile (fun c => c = '(' || c = '（') with
  | [] => false
  | c :: t => (c = '％' || c = '%') && t.all (fun c => c = ')' || c = '）')

/-- Scanner for the tail `[^0-9]*[年\./]` of the year pattern: succeeds iff
some later character is `年`, `.` or `/` with no ASCII digit before it. -/
def seekYearSep : Str → Bool
  | [] => false
  | c :: t =>
    if c = '年' || c = '.' || c = '/' then true
    else if c.isDigit then false
    else seekYearSep t

/-- Anchored match of `(?:19|20)\d{2}[^0-9]*[年\./]`. -/
def yearAt : Str → Bool
  | a :: b :: c :: d :: rest =>
    ((a = '1' && b = '9') || (a = '2' && b = '0')) && c.isDigit && d.isDigit &&
      seekYearSep rest
  | _ => false

/-- Embedding of the year-pattern `re.search` (`financial_analyzer.py:26`). -/
def yearSearch : Str → Bool
  | [] => false
  | c :: t => yearAt (c :: t) || yearSearch t

/-- Comma removal before the float conversion (`financial_analyzer.py:190`). -/
def stripCommas (l : Str) : Str := l.filter (fun c => c ≠ ',')

/-- Whether Python `float(l)` succeeds, for `l` drawn from `-?[0-9.]*`
(which is the only shape reaching the call at `financial_analyzer.py:190`):
it needs at least one digit, at most one dot, and only digits/dots after
the optional sign. -/
def floatOk (l : Str) : Bool :=
  let core := match l with | '-' :: t => t | _ => l
  core.any Char.isDigit && core.count '.' ≤ 1 &&
    core.all (fun c => c.isDigit || c = '.')

/-- Embedding of the bare-unit-word `re.fullmatch`
(`financial_analyzer.py:197`): an alternation of literals with distinct
texts, i.e. list membership. -/
def unitWordFM (l : Str) : Bool :=
  l = str "百万円" || l = str "千円" || l = str "円銭" || l = str "％" ||
  l = str "%" || l = str "円" || l = str "銭"

example : fullRangeSearch (str "100~200") = some (str "100", str "200") := by decide
example : fullRangeSearch (str "100~") = none := by decide
example : rangeStartFM (str "100~") = some (str "100") := by decide
example : rangeEndFM (str "~200") = some (str "200") := by decide
example : plainFM (str "-1,234.5") = some (str "-1,234.5") := by decide
example : numPercentFM (str "-12.5%") = true := by decide
example : numPercentFM (str "1.") = false := by decide
example : percentOnlyFM (str "(%)") = true := by decide
example : yearSearch (str "2024年5月期") = true := by decide
example : yearSearch (str "FY2023") = false := by decide
example : floatOk (str "1.2.3") = false := by decide
example : floatOk (str "-12.5") = true := by decide

example : pyNorm (str "△1,234～＋5") = str "-1,234~5" := by decide

/-! ### Multiline expander (`pdf_parser.py:expand_multiline_table`) -/

/-- The cleanup applied to fragments before the numeric test
(`pdf_parser.py:183`):
`.replace(',', '').replace('△', '-').replace('▲', '-').replace('－', '-')`. -/
def expClean (l : Str) : Str :=
  pyReplaceChar '－' (some '-')
    (pyReplaceChar '▲' (some '-')
      (pyReplaceChar '△' (some '-')
        (pyReplaceChar ',' none l)))

/-- Embedding of the separator-then-rest `re.match` (`pdf_parser.py:185`):
anchored at the start; returns group 2 (the text after the separator and
greedy whitespace).  Fragments contain no newline (they come from a
newline split), so `.*`/`$` subtleties do not arise. -/
def matchRangeEnd (l : Str) : Option Str :=
  match l with
  | [] => none
  | c :: t =>
    if c = '~' || c = '～' || c = '-' || c = '－' then some (t.dropWhile pySpace)
    else none

/-- Adjacent-fragment merging loop (`pdf_parser.py:174-202`): if fragment
`i` is a bare number (after cleanup, optionally with `%`) and fragment
`i+1` is a separator followed by such a number, they merge into one
`A~B` fragment and both are consumed (the `skip_next` flag). -/
def mergeParts : List Str → List Str
  | [] => []
  | [p] => [p]
  | curr :: next :: rest =>
    match matchRangeEnd next with
    | some valPart =>
      if numPercentFM (expClean curr) && numPercentFM (expClean valPart) then
        (curr ++ str "~" ++ valPart) :: mergeParts rest
      else curr :: mergeParts (next :: rest)
    | none => curr :: mergeParts (next :: rest)

/-- Per-cell fragment list (`pdf_parser.py:160-204`): delete every `"None"`
substring, split on newlines, strip each fragment, drop empties, and merge
adjacent range fragments when there are at least two. -/
def cellFragments (x : Str) : List Str :=
  let parts := ((splitNl (replaceSub (str "None") [] x)).map pyStrip).filter
    (fun p => p ≠ [])
  if parts.length < 2 then parts else mergeParts parts

/-- Row expansion (`pdf_parser.py:206-219`): the row is re-emitted once per
depth level up to the maximum fragment count, padding short cells with the
empty string; a row whose maximum depth is 0 is dropped. -/
def expandRow (row : List Str) : List (List Str) :=
  let merged := row.map cellFragments
  let depth := merged.foldl (fun a ps => max a ps.length) 0
  (List.range depth).map (fun d => merged.map (fun ps => ps.getD d []))

/-- Full multiline expansion, `expand_multiline_table`
(`pdf_parser.py:153-224`).  The final
`pd.DataFrame(...).dropna(axis=1, how='all').dropna(axis=0, how='all')
.fillna("")` is the identity here: all emitted rows consist of strings (a
string, even empty, is never NaN) and, the input being a rectangular
`DataFrame`, all emitted rows have equal length, so the frame introduces
no NaN padding. -/
def expand_multiline_table (df : List (List Str)) : List (List Str) :=
  (df.map expandRow).flatten

example : expand_multiline_table [[str "None"]] = [] := by decide
example : expand_multiline_table [[str "Nonexistent"]] = [[str "xistent"]] := by decide
example : cellFragments (str "100~\n~200") = [str "100~", str "~200"] := by decide
example : cellFragments (str "100\n~200") = [str "100~200"] := by decide
example : expandRow [str "a\nb", str "c"] = [[str "a", str "c"], [str "b", []]] := by decide

/-! ### Row interpreter data model (`financial_analyzer.py:parse_financial_table`)

A record value is Python `None`, a float (kept as its comma-stripped
literal), or a string.  Records are dictionaries; here an association list
with Python-dict semantics: `dget` conflates a missing key with a stored
`None` exactly as `dict.get` does, and `dset` updates in place or appends
(dict insertion order). -/

inductive CVal where
  | null : CVal
  | num : Str → CVal
  | txt : Str → CVal
deriving DecidableEq

/-- Python-dictionary read with a default for a missing key.  Keys are
unique in every dictionary the pipeline builds, so first-match semantics
coincide with dict lookup. -/
def aget {α : Type} (dflt : α) : List (Str × α) → Str → α
  | [], _ => dflt
  | p :: t, k => if p.1 = k then p.2 else aget dflt t k

/-- Python-dictionary write `d[k] = v`: replaces the (unique) binding of
`k` in place, or appends it in insertion order when absent. -/
def aset {α : Type} : List (Str × α) → Str → α → List (Str × α)
  | [], k, v => [(k, v)]
  | p :: t, k, v => if p.1 = k then (k, v) :: t else p :: aset t k v

/-- Record read, `record.get(k)`: `None` both when the key is absent and
when it holds `None`, exactly as `dict.get`. -/
def dget (fs : List (Str × CVal)) (k : Str) : CVal := aget CVal.null fs k

/-- Record write, `record[k] = v`. -/
def dset (fs : List (Str × CVal)) (k : Str) (v : CVal) : List (Str × CVal) :=
  aset fs k v

/-- Pending-range dictionary read (`persistent_pending_range_starts[h]`);
the key is always present in the pipeline, `none` is a safe default. -/
def pget (ps : List (Str × Option Str)) (k : Str) : Option Str :=
  aget none ps k

/-- Pending-range dictionary write. -/
def pset (ps : List (Str × Option Str)) (k : Str) (v : Option Str) :
    List (Str × Option Str) :=
  aset ps k v

/-- One output record: a dict of the period key and metric fields.  The period
key is kept apart from the metric fields; header names can never collide
with `'period'` because name resolution starts from a used-list containing
it. -/
structure PRec where
  period : Str
  fields : List (Str × CVal)
deriving DecidableEq

/-- Cell of the modelled DataFrame: `str(df.iloc[r, c]).`  Out-of-range
reads yield `""`, observationally equal to the `"nan"` pandas would give
(both are dropped by the header filter and classified null by the row
interpreter). -/
def iloc (df : List (List Str)) (r c : Nat) : Str := (df.getD r []).getD c []

/-! ### Step 1 — data start row detection (`financial_analyzer.py:20-47`) -/

/-- Numeric-cell test of the detection loop (`financial_analyzer.py:37-39`). -/
def detectNumericCell (cell : Str) : Bool :=
  let s := pyReplaceChar '－' (some '-')
    (pyReplaceChar '▲' (some '-')
      (pyReplaceChar '△' (some '-')
        (pyReplaceChar ',' none (pyStrip cell))))
  numPercentFM s || s = str "-" || s = str "−" || s = str "―"

/-- Period-marker test on the label cell of the detection loop
(`financial_analyzer.py:26-29`). -/
def detectPeriodLabel (lbl : Str) : Bool :=
  yearSearch lbl || isSubstr (str "通期") lbl || isSubstr (str "四半期") lbl ||
    isSubstr (str "年度") lbl

/-- Detection loop (`financial_analyzer.py:23-42`).  The float comparison
`numeric_count / data_cols_count > 0.5` is modelled exactly as
`2 * numeric_count > data_cols_count`: for the small integer counts
involved the rounded double crosses 0.5 iff the rational does. -/
def detectAux (ncols : Nat) : List (List Str) → Nat → Option Nat
  | [], _ => none
  | row :: rest, i =>
    let lbl := pyStrip (row.getD 0 [])
    if detectPeriodLabel lbl then some i
    else if 1 < ncols &&
        decide (ncols - 1 <
          2 * ((List.range' 1 (ncols - 1)).countP
                (fun c => detectNumericCell (row.getD c [])))) then
      some i
    else detectAux ncols rest (i + 1)

/-- The data start row (`financial_analyzer.py:21-47`): `none` when no row
qualifies (the table yields no records); a found index 0 is forced to 1. -/
def parseFirstDataRow (ncols : Nat) (df : List (List Str)) : Option Nat :=
  (detectAux ncols df 0).map (fun i0 => if i0 = 0 then 1 else i0)

/-! ### Step 2 — header reconstruction (`financial_analyzer.py:49-109`) -/

/-- Concatenated header fragments of column `c`
(`financial_analyzer.py:53-59`): every header-region cell, stripped,
skipping empties and the `nan`/`None` placeholders. -/
def headerConcat (df : List (List Str)) (firstData c : Nat) : Str :=
  ((List.range firstData).filterMap (fun r =>
    let v := pyStrip (iloc df r c)
    if v ≠ [] ∧ pyLower v ≠ str "nan" ∧ v ≠ str "None" then some v
    else none)).flatten

/-- Unit-suffix detection and stripping (`financial_analyzer.py:62-68`):
returns `(unit_suffix, full_header_text after stripping)`. -/
def headerUnit (full : Str) : Str × Str :=
  if isSubstr (str "百万円") full then
    (str "_百万円",
      replaceSub (str "百万円") []
        (replaceSub (str "（百万円）") []
          (replaceSub (str "(百万円)") [] full)))
  else if isSubstr (str "円銭") full then
    (str "_円銭",
      replaceSub (str "円銭") []
        (replaceSub (str "（円銭）") []
          (replaceSub (str "(円銭)") [] full)))
  else ([], full)

/-- Suffix-only test (`financial_analyzer.py:71-74`), applied to the
unit-stripped header text. -/
def isSuffixOnlyHeader (full : Str) : Bool :=
  percentOnlyFM (pyStrip full) || isSubstr (str "増減率") full ||
  isSubstr (str "前年比") full || isSubstr (str "対前年") full ||
  isSubstr (str "同増減") full || isSubstr (str "対前期") full

/-- Whitespace removal for the clean header name
(`financial_analyzer.py:77`). -/
def cleanOf (full : Str) : Str :=
  pyReplaceChar '\n' none (pyReplaceChar '　' none (pyReplaceChar ' ' none full))

/-- Embedding of the trailing-unit `re.sub` (`financial_analyzer.py:85`):
the three alternatives end in distinct characters, so at most one matches,
necessarily as a suffix. -/
def stripUnitSuffix (l : Str) : Str :=
  if (str "_百万円").isSuffixOf l then l.take (l.length - 4)
  else if (str "_円銭").isSuffixOf l then l.take (l.length - 3)
  else if (str "_増減率").isSuffixOf l then l.take (l.length - 4)
  else l

/-- Decimal digit character. -/
def digitChar (d : Nat) : Char :=
  if d = 0 then '0' else if d = 1 then '1' else if d = 2 then '2'
  else if d = 3 then '3' else if d = 4 then '4' else if d = 5 then '5'
  else if d = 6 then '6' else if d = 7 then '7' else if d = 8 then '8'
  else '9'

/-- Decimal rendering of a positive natural, fuel-driven (fuel is always at
least the digit count; `natLit` passes `n + 1`). -/
def natLitAux : Nat → Nat → Str
  | 0, _ => []
  | f + 1, n => if n = 0 then [] else natLitAux f (n / 10) ++ [digitChar (n % 10)]

/-- Python decimal rendering of a natural, as in `f-strings`. -/
def natLit (n : Nat) : Str := if n = 0 then str "0" else natLitAux (n + 1) n

/-- Candidate name of the collision loop (`financial_analyzer.py:107`):
`f-string` rendering of `orig_counter`. -/
def candName (orig : Str) (k : Nat) : Str := orig ++ str "_" ++ natLit k

/-- Collision loop (`financial_analyzer.py:105-108`), fuel-driven: tries
`orig_1`, `orig_2`, … in order.  Fuel `used.length + 1` always suffices:
the candidates are pairwise distinct, so by pigeonhole one of the first
`used.length + 1` is unused (proved below). -/
def resolveGo (orig : Str) (used : List Str) : Nat → Nat → Str
  | 0, k => candName orig k
  | f + 1, k =>
    if candName orig k ∈ used then resolveGo orig used f (k + 1)
    else candName orig k

/-- Final-name resolution (`financial_analyzer.py:103-108`). -/
def resolveName (orig : Str) (used : List Str) : Str :=
  if orig ∈ used then resolveGo orig used (used.length + 1) 1 else orig

/-- Name of data column `c` given the names assigned so far
(`financial_analyzer.py:52-108`, one iteration of the header loop). -/
def headerName (df : List (List Str)) (firstData : Nat) (acc : List Str)
    (c : Nat) : Str :=
  let full := headerConcat df firstData c
  let u := headerUnit full
  let unit0 := u.1
  let stripped := u.2
  let sOnly := isSuffixOnlyHeader stripped
  let clean := cleanOf stripped
  let base_unit :=
    if clean = [] || sOnly then
      if 1 < c then
        let prevBase := stripUnitSuffix (acc.getLastD [])
        let u1 := if ¬ (isSubstr (str "増減率") unit0 = true) then
            (if unit0 = [] then str "_増減率" else unit0)
          else unit0
        (prevBase, u1)
      else (str "col_" ++ natLit c, unit0)
    else (clean, unit0)
  let unit2 :=
    if (isSubstr (str "増減率") stripped || isSubstr (str "％") stripped ||
        isSubstr (str "%") stripped) &&
       ¬ (isSubstr (str "増減率") base_unit.2 = true) then str "_増減率"
    else base_unit.2
  resolveName (base_unit.1 ++ unit2) acc

/-- Header reconstruction (`financial_analyzer.py:50-109`): the final
column-name list, starting from the reserved `'period'` at index 0. -/
def buildHeaders (df : List (List Str)) (firstData ncols : Nat) : List Str :=
  (List.range' 1 (ncols - 1)).foldl
    (fun acc c => acc ++ [headerName df firstData acc c]) [str "period"]

example :
    buildHeaders [[str "", str "売上高", str ""],
                  [str "", str "(百万円)", str "(%)"]] 2 3 =
      [str "period", str "売上高_百万円", str "売上高_増減率"] := by decide
example : resolveName (str "a") [str "period", str "a", str "a_1"] = str "a_2" := by
  decide
example : natLit 12 = str "12" := by decide
example : stripUnitSuffix (str "売上高_百万円") = str "売上高" := by decide

/-! ### Step 3 — the row interpreter (`financial_analyzer.py:111-217`) -/

/-- Period-label test on the row label (`financial_analyzer.py:119-121`). -/
def rowIsPeriodLabel (lbl : Str) : Bool :=
  isSubstr (str "年") lbl || isSubstr (str "期") lbl ||
  isSubstr (str "通期") lbl || isSubstr (str "年度") lbl

/-- Numeric-bearing test over the non-label cells
(`financial_analyzer.py:123-126`): some cell contains an ASCII digit or is
exactly a dash glyph. -/
def rowHasNumericData (cells : List Str) : Bool :=
  (cells.drop 1).any (fun c =>
    c.any Char.isDigit || c = str "-" || c = str "－" || c = str "―" ||
      c = str "−")

/-- Period attribution and queue update (`financial_analyzer.py:128-138`):
returns `(target_period, queued_labels after the row)`. -/
def rowPeriod (queued : List Str) (isP : Bool) (lbl : Str) (hasNum : Bool) :
    Option Str × List Str :=
  if hasNum then
    match queued with
    | l :: rest => (some l, rest ++ (if isP then [lbl] else []))
    | [] => (if isP then (some lbl, []) else (none, []))
  else if isP then (none, queued ++ [lbl])
  else (none, queued)

/-- Classification of one (stripped) cell given the column's pending-range
slot (`financial_analyzer.py:146-201`): returns
`(value, new pending slot, meaningful-data flag for this cell)`.
The branch order is exactly the source's: null glyphs, full range (search),
dangling start, bare number consuming a pending start, dangling end
consuming a pending start, then — with the pending slot cleared — the
float attempt, the bare-unit-word rule, and the verbatim fallback (which
stores the raw, pre-normalization cell text). -/
def classifyCell (pending : Option Str) (raw : Str) : CVal × Option Str × Bool :=
  let n := pyNorm raw
  if n = [] ∨ n = str "-" ∨ n = str "―" ∨ n = str "−" ∨ n = str "nan" ∨
      n = str "None" then
    (CVal.null, none, false)
  else
    match fullRangeSearch n with
    | some ab => (CVal.txt (ab.1 ++ str "~" ++ ab.2), none, true)
    | none =>
      match rangeStartFM n with
      | some a => (CVal.txt n, some a, true)
      | none =>
        if (plainFM n).isSome && pending.isSome then
          (CVal.txt (pending.getD [] ++ str "~" ++ (plainFM n).getD []), none, true)
        else if (rangeEndFM n).isSome && pending.isSome then
          (CVal.txt (pending.getD [] ++ str "~" ++ (rangeEndFM n).getD []), none, true)
        else if (plainFM n).isSome && floatOk (stripCommas n) then
          (CVal.num (stripCommas n), none, true)
        else if unitWordFM n then (CVal.null, none, true)
        else (CVal.txt raw, none, true)

/-- One iteration of the per-cell loop (`financial_analyzer.py:143-201`):
columns beyond the reconstructed headers are skipped entirely. -/
def cellStep (headers cells : List Str) :
    List (Str × CVal) × List (Str × Option Str) × Bool → Nat →
    List (Str × CVal) × List (Str × Option Str) × Bool :=
  fun st c =>
    if c < headers.length then
      let h := headers.getD c []
      let r := classifyCell (pget st.2.1 h) (cells.getD c [])
      (dset st.1 h r.1, pset st.2.1 h r.2.1, st.2.2 || r.2.2)
    else st

/-- The per-cell loop over column indices `1 .. len(cells) - 1`
(`financial_analyzer.py:140-201`): returns
`(current_row_parsed_data, pending dict after the row, meaningful flag)`. -/
def cellLoop (headers cells : List Str) (pend : List (Str × Option Str)) :
    List (Str × CVal) × List (Str × Option Str) × Bool :=
  (List.range' 1 (cells.length - 1)).foldl (cellStep headers cells) ([], pend, false)

/-- One iteration of the record-merge loop (`financial_analyzer.py:212-217`):
fill the field only if the latest record holds null (or lacks the key) and
this row's value is not null. -/
def mergeStep (fs : List (Str × CVal)) (hv : Str × CVal) : List (Str × CVal) :=
  if hv.1 = str "period" then fs
  else if dget fs hv.1 = CVal.null ∧ hv.2 ≠ CVal.null then dset fs hv.1 hv.2
  else fs

/-- The record-merge loop over this row's parsed data
(`financial_analyzer.py:210-217`). -/
def mergeFields (fs parsed : List (Str × CVal)) : List (Str × CVal) :=
  parsed.foldl mergeStep fs

/-- Full interpreter state: output records, queued period labels, and the
per-column pending-range slots. -/
structure ParseState where
  records : List PRec
  queued : List Str
  pending : List (Str × Option Str)
deriving DecidableEq

/-- Processing of one data row (`financial_analyzer.py:115-217`). -/
def processRow (headers : List Str) (st : ParseState) (row : List Str) :
    ParseState :=
  let cells := row.map pyStrip
  let lbl := pyStrip (row.getD 0 [])
  let isP := rowIsPeriodLabel lbl
  let hasNum := rowHasNumericData cells
  let pq := rowPeriod st.queued isP lbl hasNum
  let cl := cellLoop headers cells st.pending
  let records :=
    match pq.1 with
    | some t =>
      if cl.1.any (fun p => p.1 ≠ str "period" ∧ p.2 ≠ CVal.null) then
        st.records ++ [⟨t, cl.1⟩]
      else st.records
    | none =>
      if cl.2.2 then
        match st.records.getLast? with
        | some r => st.records.dropLast ++ [⟨r.period, mergeFields r.fields cl.1⟩]
        | none => st.records
      else st.records
  ⟨records, pq.2, cl.2.1⟩

/-- The data-row loop (`financial_analyzer.py:112-217`) started from the
fresh per-table state: no records, empty label queue, and every data
column's pending slot `None`. -/
def runRowsState (headers : List Str) (rows : List (List Str)) : ParseState :=
  rows.foldl (processRow headers)
    ⟨[], [], (headers.drop 1).map (fun h => (h, none))⟩

/-- Top-level table interpreter (`financial_analyzer.py:11-219`): `ncols`
models `len(df.columns)`.  It is kept as a parameter so that the defensive
column bound of line 144 stays observable on non-rectangular inputs. -/
def parse_financial_table (ncols : Nat) (df : List (List Str)) : List PRec :=
  if df.isEmpty || ncols = 0 then []
  else
    match parseFirstDataRow ncols df with
    | none => []
    | some i => (runRowsState (buildHeaders df i ncols) (df.drop i)).records

example :
    parse_financial_table 3
      [[str "", str "売上高", str ""],
       [str "", str "(百万円)", str "(%)"],
       [str "2024年5月期", str "1,234", str "5.6"]] =
      [⟨str "2024年5月期",
        [(str "売上高_百万円", CVal.num (str "1234")),
         (str "売上高_増減率", CVal.num (str "5.6"))]⟩] := by decide

example : classifyCell none (str "5.6%") = (CVal.txt (str "5.6%"), none, true) := by
  decide
example : classifyCell (some (str "100")) (str "~200") =
    (CVal.txt (str "100~200"), none, true) := by decide
example : classifyCell (some (str "100")) (str "200") =
    (CVal.txt (str "100~200"), none, true) := by decide
example : classifyCell none (str "百万円") = (CVal.null, none, true) := by decide
example : classifyCell (some (str "1")) (str "abc") = (CVal.txt (str "abc"), none, true) := by
  decide

/-! ### Helper lemmas -/

theorem normF_stable (c c' : Char) (h : normF c = some c') : normF c' = some c' := by
  unfold normF at h
  split_ifs at h with h1 h2 h3 h4 h5 h6
  · injection h with h; subst h; decide
  · injection h with h; subst h; decide
  · injection h with h; subst h; decide
  · injection h with h; subst h; decide
  · injection h with h; subst h; simp [normF, h1, h2, h3, h4, h5, h6]

theorem replaceSubAux_nil (pat rep : Str) (f : Nat) :
    replaceSubAux pat rep f [] = [] := by
  cases f <;> rfl

theorem replaceSubAux_fuel (pat rep : Str) :
    ∀ f g s, s.length ≤ f → s.length ≤ g →
      replaceSubAux pat rep f s = replaceSubAux pat rep g s := by
  intro f
  induction f with
  | zero =>
    intro g s hf _
    have hs : s = [] := List.eq_nil_of_length_eq_zero (Nat.le_zero.mp hf)
    subst hs
    rw [replaceSubAux_nil, replaceSubAux_nil]
  | succ f ih =>
    intro g s hf hg
    cases s with
    | nil => rw [replaceSubAux_nil, replaceSubAux_nil]
    | cons c rest =>
      cases g with
      | zero => simp at hg
      | succ g' =>
        have hrf : rest.length ≤ f := by simpa using hf
        have hrg : rest.length ≤ g' := by simpa using hg
        have hd : (rest.drop (pat.length - 1)).length ≤ rest.length := by
          rw [List.length_drop]; omega
        show (if pat ≠ [] ∧ pat.isPrefixOf (c :: rest) = true then
            rep ++ replaceSubAux pat rep f (rest.drop (pat.length - 1))
          else c :: replaceSubAux pat rep f rest) =
          (if pat ≠ [] ∧ pat.isPrefixOf (c :: rest) = true then
            rep ++ replaceSubAux pat rep g' (rest.drop (pat.length - 1))
          else c :: replaceSubAux pat rep g' rest)
        by_cases h : pat ≠ [] ∧ pat.isPrefixOf (c :: rest) = true
        · rw [if_pos h, if_pos h]
          congr 1
          exact ih g' _ (le_trans hd hrf) (le_trans hd hrg)
        · rw [if_neg h, if_neg h]
          congr 1
          exact ih g' rest hrf hrg

theorem replaceSubAux_cons (pat rep : Str) (f : Nat) (c : Char) (rest : Str) :
    replaceSubAux pat rep (f + 1) (c :: rest) =
      if pat ≠ [] ∧ pat.isPrefixOf (c :: rest) = true then
        rep ++ replaceSubAux pat rep f (rest.drop (pat.length - 1))
      else c :: replaceSubAux pat rep f rest := rfl

theorem stripNone_drop_leading (t : Str) :
    replaceSub (str "None") [] (str "None" ++ t) = replaceSub (str "None") [] t := by
  unfold replaceSub
  have h1 : (str "None" ++ t) = 'N' :: 'o' :: 'n' :: 'e' :: t := rfl
  rw [h1]
  have h2 : ('N' :: 'o' :: 'n' :: 'e' :: t).length = t.length + 3 + 1 := by simp
  rw [h2, replaceSubAux_cons, if_pos ⟨by decide, by simp [str, List.isPrefixOf]⟩]
  have h3 : (('o' :: 'n' :: 'e' :: t).drop ((str "None").length - 1)) = t := rfl
  rw [h3, List.nil_append]
  exact replaceSubAux_fuel _ _ _ _ _ (by omega) (le_refl _)

theorem aget_aset_same {α : Type} (d : List (Str × α)) (k : Str) (v : α)
    (dflt : α) : aget dflt (aset d k v) k = v := by
  induction d with
  | nil => simp [aset, aget]
  | cons p t ih =>
    by_cases hp : p.1 = k
    · simp [aset, hp, aget]
    · simp [aset, hp, aget, ih]

theorem aget_cons_ne {α : Type} (p : Str × α) (t : List (Str × α)) (k : Str)
    (dflt : α) (h : ¬ (p.1 = k)) : aget dflt (p :: t) k = aget dflt t k := by
  simp [aget, h]

theorem aget_aset_ne {α : Type} (d : List (Str × α)) (k k' : Str) (v : α)
    (dflt : α) (h : k' ≠ k) : aget dflt (aset d k v) k' = aget dflt d k' := by
  induction d with
  | nil => simp [aset, aget, if_neg (Ne.symm h)]
  | cons p t ih =>
    by_cases hp : p.1 = k
    · have hp' : ¬ (p.1 = k') := by rw [hp]; exact Ne.symm h
      simp [aset, hp, aget, if_neg (Ne.symm h), if_neg hp']
    · by_cases hp' : p.1 = k'
      · simp [aset, hp, aget, hp', h]
      · simp [aset, hp, aget, hp', ih]

theorem aget_not_mem {α : Type} (d : List (Str × α)) (k : Str) (dflt : α)
    (h : k ∉ d.map Prod.fst) : aget dflt d k = dflt := by
  induction d with
  | nil => rfl
  | cons p t ih =>
    have h1 : ¬ (p.1 = k) := by
      intro he
      apply h
      rw [List.map_cons, he]
      exact List.mem_cons_self _ _
    have h2 : k ∉ t.map Prod.fst := by
      intro hm
      apply h
      rw [List.map_cons]
      exact List.mem_cons_of_mem _ hm
    rw [aget_cons_ne p t k dflt h1]
    exact ih h2

theorem aset_keys_subset {α : Type} (d : List (Str × α)) (k : Str) (v : α) :
    ∀ x ∈ (aset d k v).map Prod.fst, x = k ∨ x ∈ d.map Prod.fst := by
  induction d with
  | nil =>
    intro x hx
    have : aset ([] : List (Str × α)) k v = [(k, v)] := rfl
    rw [this, List.map_cons, List.map_nil] at hx
    exact Or.inl (List.mem_singleton.mp hx)
  | cons p t ih =>
    intro x hx
    by_cases hp : p.1 = k
    · have ha : aset (p :: t) k v = (k, v) :: t := by simp only [aset, if_pos hp]
      rw [ha, List.map_cons] at hx
      rcases List.mem_cons.mp hx with hx | hx
      · exact Or.inl hx
      · exact Or.inr (by rw [List.map_cons]; exact List.mem_cons_of_mem _ hx)
    · have ha : aset (p :: t) k v = p :: aset t k v := by simp only [aset, if_neg hp]
      rw [ha, List.map_cons] at hx
      rcases List.mem_cons.mp hx with hx | hx
      · exact Or.inr (by rw [List.map_cons, hx]; exact List.mem_cons_self _ _)
      · rcases ih x hx with h1 | h1
        · exact Or.inl h1
        · exact Or.inr (by rw [List.map_cons]; exact List.mem_cons_of_mem _ h1)

/-- Unfolding step of the record-merge fold. -/
theorem mergeFields_cons (fs : List (Str × CVal)) (hv : Str × CVal)
    (tl : List (Str × CVal)) :
    mergeFields fs (hv :: tl) = mergeFields (mergeStep fs hv) tl := rfl

theorem mergeStep_other (fs : List (Str × CVal)) (hv : Str × CVal) (k : Str)
    (h : hv.1 ≠ k) : dget (mergeStep fs hv) k = dget fs k := by
  unfold mergeStep
  split_ifs with h1 h2
  · rfl
  · exact aget_aset_ne fs hv.1 k hv.2 CVal.null (Ne.symm h)
  · rfl

theorem mergeStep_preserve (fs : List (Str × CVal)) (hv : Str × CVal) (k : Str)
    (h : dget fs k ≠ CVal.null) : dget (mergeStep fs hv) k = dget fs k := by
  by_cases hk : hv.1 = k
  · unfold mergeStep
    split_ifs with h1 h2
    · rfl
    · exact absurd (hk ▸ h2.1) h
    · rfl
  · exact mergeStep_other fs hv k hk

/-- Fields that are non-null before the merge are unchanged by it. -/
theorem mergeFields_preserve (parsed : List (Str × CVal)) :
    ∀ (fs : List (Str × CVal)) (k : Str), dget fs k ≠ CVal.null →
      dget (mergeFields fs parsed) k = dget fs k := by
  induction parsed with
  | nil => intro fs k _; rfl
  | cons hv tl ih =>
    intro fs k h
    rw [mergeFields_cons]
    have hstep := mergeStep_preserve fs hv k h
    rw [ih (mergeStep fs hv) k (by rw [hstep]; exact h), hstep]

/-- A key that does not occur in this row's parsed data is untouched. -/
theorem mergeFields_not_mem (parsed : List (Str × CVal)) :
    ∀ (fs : List (Str × CVal)) (k : Str), k ∉ parsed.map Prod.fst →
      dget (mergeFields fs parsed) k = dget fs k := by
  induction parsed with
  | nil => intro fs k _; rfl
  | cons hv tl ih =>
    intro fs k h
    have h1 : hv.1 ≠ k := by
      intro he
      apply h
      rw [List.map_cons, he]
      exact List.mem_cons_self _ _
    have h2 : k ∉ tl.map Prod.fst := by
      intro hm
      apply h
      rw [List.map_cons]
      exact List.mem_cons_of_mem _ hm
    rw [mergeFields_cons, ih _ k h2, mergeStep_other fs hv k h1]

/-- A field changed by the merge was null before, and was filled with this
row's (non-null) value for it. -/
theorem mergeFields_change (parsed : List (Str × CVal)) :
    ∀ (fs : List (Str × CVal)) (k : Str), (parsed.map Prod.fst).Nodup →
      dget (mergeFields fs parsed) k ≠ dget fs k →
      dget fs k = CVal.null ∧ dget parsed k ≠ CVal.null ∧
        dget (mergeFields fs parsed) k = dget parsed k := by
  induction parsed with
  | nil => intro fs k _ hne; exact absurd rfl hne
  | cons hv tl ih =>
    intro fs k hnd hne
    rw [List.map_cons] at hnd
    have hk' : hv.1 ∉ tl.map Prod.fst := (List.nodup_cons.mp hnd).1
    have hndtl : (tl.map Prod.fst).Nodup := (List.nodup_cons.mp hnd).2
    rw [mergeFields_cons] at hne ⊢
    by_cases hk : hv.1 = k
    · subst hk
      have hparsed : dget (hv :: tl) hv.1 = hv.2 := by simp [dget, aget]
      unfold mergeStep at hne ⊢
      split_ifs at hne ⊢ with h1 h2
      · rw [mergeFields_not_mem tl fs hv.1 hk'] at hne
        exact absurd rfl hne
      · have hfs' : dget (dset fs hv.1 hv.2) hv.1 = hv.2 :=
          aget_aset_same fs hv.1 hv.2 CVal.null
        have hfin : dget (mergeFields (dset fs hv.1 hv.2) tl) hv.1 = hv.2 := by
          rw [mergeFields_preserve tl _ _ (by rw [hfs']; exact h2.2), hfs']
        exact ⟨h2.1, by rw [hparsed]; exact h2.2, by rw [hfin, hparsed]⟩
      · rw [mergeFields_not_mem tl fs hv.1 hk'] at hne
        exact absurd rfl hne
    · have hstep : dget (mergeStep fs hv) k = dget fs k :=
        mergeStep_other fs hv k hk
      have hne' : dget (mergeFields (mergeStep fs hv) tl) k ≠
          dget (mergeStep fs hv) k := by rw [hstep]; exact hne
      obtain ⟨a, b, c⟩ := ih (mergeStep fs hv) k hndtl hne'
      have htl : dget (hv :: tl) k = dget tl k := aget_cons_ne hv tl k CVal.null hk
      exact ⟨by rw [← hstep]; exact a, by rw [htl]; exact b, by rw [htl]; exact c⟩

/-! ### Claims -/

/-- C8: cell normalization (the chained negative-glyph, plus-sign and tilde
replaces of `financial_analyzer.py:148-149`) is idempotent:
`normalize(normalize(s)) == normalize(s)` for every string. -/
theorem C8_normalization_idempotent (s : Str) : pyNorm (pyNorm s) = pyNorm s := by
  rw [pyNorm_eq_filterMap (pyNorm s), pyNorm_eq_filterMap s,
    List.filterMap_filterMap]
  apply List.filterMap_congr
  intro c _
  cases h : normF c with
  | none => rfl
  | some c' => simp [normF_stable c c' h]

/-- Discriminator: is the value a parsed numeric (float) value? -/
def CVal.isNum : CVal → Bool
  | CVal.num _ => true
  | _ => false

/-- Two-row range grid for C1: a header row, then a period row whose data
cell is the dangling start `"100~"`, then a continuation row `"~200"`. -/
def c1grid : List (List Str) :=
  [[str "", str "売上高"],
   [str "2024年", str "100~"],
   [str "", str "~200"]]

/-- Three-row grid for C2: the dangling start `"100~"` sits in the record
of `2024年`; the matching end `"~200"` arrives on a row that creates a NEW
record (`2025年`). -/
def c2grid : List (List Str) :=
  [[str "", str "売上高"],
   [str "2024年", str "100~"],
   [str "2025年", str "~200"]]

/-- C1 counterexample: on the cell sequence `["100~", "~200"]` the value
recorded for the column in the first row's record is the placeholder
`"100~"`, not `"100~200"` — the dangling-start branch stores the raw text
as a non-null placeholder (`financial_analyzer.py:166`), and the merge
(`financial_analyzer.py:215`) never overwrites a non-null value, so the
combined range computed on the second row is discarded. -/
theorem C1_counterexample :
    parse_financial_table 2 c1grid =
      [⟨str "2024年", [(str "売上高", CVal.txt (str "100~"))]⟩] ∧
    CVal.txt (str "100~") ≠ CVal.txt (str "100~200") := by decide

/-- C1 amended: after the second row the pending-range slot is indeed
empty and the second row's cell classifies as `"100~200"`, but the first
row's record keeps the placeholder `"100~"`: the merge fills only
null-valued fields and the placeholder is non-null. -/
theorem C1_range_merge_amended :
    parseFirstDataRow 2 c1grid = some 1 ∧
    buildHeaders c1grid 1 2 = [str "period", str "売上高"] ∧
    (runRowsState (buildHeaders c1grid 1 2) (c1grid.drop 1)).records =
      [⟨str "2024年", [(str "売上高", CVal.txt (str "100~"))]⟩] ∧
    (runRowsState (buildHeaders c1grid 1 2) (c1grid.drop 1)).pending =
      [(str "売上高", none)] ∧
    classifyCell (some (str "100")) (str "~200") =
      (CVal.txt (str "100~200"), none, true) := by decide

/-- C2 counterexample: the pending-range slot is not scoped to a logical
record.  The start `"100~"` appears in the row that creates the `2024年`
record, yet it is consumed by a cell of the `2025年` record created
afterwards: that cell yields `"100~200"`, whereas with an empty pending
slot the same cell text `"~200"` is kept verbatim. -/
theorem C2_counterexample :
    parse_financial_table 2 c2grid =
      [⟨str "2024年", [(str "売上高", CVal.txt (str "100~"))]⟩,
       ⟨str "2025年", [(str "売上高", CVal.txt (str "100~200"))]⟩] ∧
    classifyCell none (str "~200") = (CVal.txt (str "~200"), none, true) := by
  decide

/-- C3 counterexample: the row interpreter strips no percent glyph.  The
cell `"5.6%"` — a bare number with a trailing percent glyph, unchanged by
normalization — matches neither numeric pattern
(`financial_analyzer.py:170,189`) and is kept verbatim as text, not
classified as a parsed numeric value. -/
theorem C3_counterexample :
    classifyCell none (str "5.6%") = (CVal.txt (str "5.6%"), none, true) ∧
    (classifyCell none (str "5.6%")).1.isNum = false := by decide

/-- A key that no index of `L` maps to is untouched by the cell loop, in
both the parsed-data dictionary and the pending dictionary. -/
theorem cellLoop_untouched (headers cells : List Str) (k : Str) :
    ∀ (L : List Nat)
      (st : List (Str × CVal) × List (Str × Option Str) × Bool),
      (∀ j ∈ L, j < headers.length → headers.getD j [] ≠ k) →
      aget CVal.null (L.foldl (cellStep headers cells) st).1 k =
        aget CVal.null st.1 k ∧
      aget none (L.foldl (cellStep headers cells) st).2.1 k =
        aget none st.2.1 k := by
  intro L
  induction L with
  | nil => intro st _; exact ⟨rfl, rfl⟩
  | cons j L' ih =>
    intro st h
    rw [List.foldl_cons]
    have hstep :
        aget CVal.null (cellStep headers cells st j).1 k = aget CVal.null st.1 k ∧
        aget none (cellStep headers cells st j).2.1 k = aget none st.2.1 k := by
      unfold cellStep
      by_cases hj : j < headers.length
      · rw [if_pos hj]
        have hne : k ≠ headers.getD j [] :=
          Ne.symm (h j (List.mem_cons_self _ _) hj)
        exact ⟨aget_aset_ne _ _ _ _ _ hne, aget_aset_ne _ _ _ _ _ hne⟩
      · rw [if_neg hj]; exact ⟨rfl, rfl⟩
    obtain ⟨h1, h2⟩ :=
      ih (cellStep headers cells st j) (fun j' hm => h j' (List.mem_cons_of_mem _ hm))
    exact ⟨h1.trans hstep.1, h2.trans hstep.2⟩

/-- For an index list visiting `c` exactly once, with all other visited
indices mapping to header names different from `c`'s, the value parsed for
column `c` and its final pending slot are exactly the classification of
cell `c` against its own initial pending slot. -/
theorem cellLoop_go_spec (headers cells : List Str) :
    ∀ (L : List Nat)
      (st : List (Str × CVal) × List (Str × Option Str) × Bool) (c : Nat),
      L.Nodup → c ∈ L → c < headers.length →
      (∀ j ∈ L, j ≠ c → j < headers.length →
        headers.getD j [] ≠ headers.getD c []) →
      aget CVal.null (L.foldl (cellStep headers cells) st).1 (headers.getD c []) =
        (classifyCell (aget none st.2.1 (headers.getD c []))
          (cells.getD c [])).1 ∧
      aget none (L.foldl (cellStep headers cells) st).2.1 (headers.getD c []) =
        (classifyCell (aget none st.2.1 (headers.getD c []))
          (cells.getD c [])).2.1 := by
  intro L
  induction L with
  | nil => intro st c _ hc; exact absurd hc (List.not_mem_nil c)
  | cons j L' ih =>
    intro st c hnd hc hch hH
    rw [List.foldl_cons]
    by_cases hjc : j = c
    · subst hjc
      have hnotin : j ∉ L' := (List.nodup_cons.mp hnd).1
      have hU := cellLoop_untouched headers cells (headers.getD j []) L'
        (cellStep headers cells st j)
        (fun j' hm hlt => hH j' (List.mem_cons_of_mem _ hm)
          (fun he => hnotin (he ▸ hm)) hlt)
      have hset1 :
          aget CVal.null (cellStep headers cells st j).1 (headers.getD j []) =
            (classifyCell (aget none st.2.1 (headers.getD j []))
              (cells.getD j [])).1 := by
        unfold cellStep
        rw [if_pos hch]
        exact aget_aset_same _ _ _ _
      have hset2 :
          aget none (cellStep headers cells st j).2.1 (headers.getD j []) =
            (classifyCell (aget none st.2.1 (headers.getD j []))
              (cells.getD j [])).2.1 := by
        unfold cellStep
        rw [if_pos hch]
        exact aget_aset_same _ _ _ _
      exact ⟨hU.1.trans hset1, hU.2.trans hset2⟩
    · have hc' : c ∈ L' := by
        rcases List.mem_cons.mp hc with h1 | h1
        · exact absurd h1.symm hjc
        · exact h1
      have hpend :
          aget none (cellStep headers cells st j).2.1 (headers.getD c []) =
            aget none st.2.1 (headers.getD c []) := by
        unfold cellStep
        by_cases hj : j < headers.length
        · rw [if_pos hj]
          exact aget_aset_ne _ _ _ _ _
            (Ne.symm (hH j (List.mem_cons_self _ _) hjc hj))
        · rw [if_neg hj]
      have := ih (cellStep headers cells st j) c (List.nodup_cons.mp hnd).2 hc' hch
        (fun j' hm hne hlt => hH j' (List.mem_cons_of_mem _ hm) hne hlt)
      rw [hpend] at this
      exact this

/-- C2 amended: within one row, column `c`'s recorded value and final
pending slot are exactly the classification of column `c`'s own cell
against column `c`'s own initial pending slot — one column's pending state
can never affect another column.  (The per-record part of the claim is
refuted by `C2_counterexample`: the slot does survive into later
records of the same table.) -/
theorem C2_pending_isolated (headers cells : List Str)
    (pend : List (Str × Option Str)) (c : Nat)
    (hnd : headers.Nodup) (h1 : 1 ≤ c) (h2 : c < cells.length)
    (h3 : c < headers.length) :
    dget (cellLoop headers cells pend).1 (headers.getD c []) =
      (classifyCell (pget pend (headers.getD c [])) (cells.getD c [])).1 ∧
    pget (cellLoop headers cells pend).2.1 (headers.getD c []) =
      (classifyCell (pget pend (headers.getD c [])) (cells.getD c [])).2.1 := by
  unfold cellLoop dget pget
  apply cellLoop_go_spec headers cells (List.range' 1 (cells.length - 1))
    ([], pend, false) c (List.nodup_range' _ _)
  · rw [List.mem_range'_1]
    omega
  · exact h3
  · intro j hm hne hlt
    rw [List.getD_eq_getElem headers [] hlt, List.getD_eq_getElem headers [] h3]
    intro he
    exact hne (hnd.getElem_inj_iff.mp he)

theorem C2_pending_isolated_witness :
    dget (cellLoop [str "period", str "A", str "B"] [[], str "~9", str "1"]
        [(str "A", some (str "5")), (str "B", none)]).1
      ([str "period", str "A", str "B"].getD 1 []) =
      (classifyCell (pget [(str "A", some (str "5")), (str "B", none)]
        ([str "period", str "A", str "B"].getD 1 []))
        ([[], str "~9", str "1"].getD 1 [])).1 ∧
    pget (cellLoop [str "period", str "A", str "B"] [[], str "~9", str "1"]
        [(str "A", some (str "5")), (str "B", none)]).2.1
      ([str "period", str "A", str "B"].getD 1 []) =
      (classifyCell (pget [(str "A", some (str "5")), (str "B", none)]
        ([str "period", str "A", str "B"].getD 1 []))
        ([[], str "~9", str "1"].getD 1 [])).2.1 :=
  C2_pending_isolated [str "period", str "A", str "B"] [[], str "~9", str "1"]
    [(str "A", some (str "5")), (str "B", none)] 1
    (by decide) (by decide) (by decide) (by decide)

theorem takeWhile_all {p : Char → Bool} :
    ∀ l : Str, (∀ c ∈ l, p c = true) → l.takeWhile p = l := by
  intro l
  induction l with
  | nil => intro _; rfl
  | cons c t ih =>
    intro h
    rw [List.takeWhile_cons, if_pos (h c (List.mem_cons_self _ _))]
    rw [ih (fun c' hm => h c' (List.mem_cons_of_mem _ hm))]

theorem dropWhile_all {p : Char → Bool} :
    ∀ l : Str, (∀ c ∈ l, p c = true) → l.dropWhile p = [] := by
  intro l
  induction l with
  | nil => intro _; rfl
  | cons c t ih =>
    intro h
    rw [List.dropWhile_cons, if_pos (h c (List.mem_cons_self _ _))]
    exact ih (fun c' hm => h c' (List.mem_cons_of_mem _ hm))

theorem numCl_ne_minus (c : Char) (h : numCl c = true) : ¬ (c = '-') := by
  intro he
  subst he
  exact absurd h (by decide)

theorem pNum_all (l : Str) (hne : l ≠ []) (h : ∀ c ∈ l, numCl c = true) :
    pNum l = some (l, []) := by
  cases l with
  | nil => exact absurd rfl hne
  | cons c t =>
    have hc : numCl c = true := h c (List.mem_cons_self _ _)
    simp only [pNum]
    rw [if_neg (numCl_ne_minus c hc), takeWhile_all _ h, dropWhile_all _ h,
      if_neg (List.cons_ne_nil c t)]

theorem pNum_minus (ds : Str) (hne : ds ≠ []) (h : ∀ c ∈ ds, numCl c = true) :
    pNum ('-' :: ds) = some ('-' :: ds, []) := by
  simp only [pNum, if_true]
  rw [takeWhile_all _ h, dropWhile_all _ h, if_neg hne]

theorem pNum_bare (sgn ds : Str) (h2 : sgn = [] ∨ sgn = str "-")
    (h3 : ds ≠ []) (h4 : ∀ c ∈ ds, numCl c = true) :
    pNum (sgn ++ ds) = some (sgn ++ ds, []) := by
  rcases h2 with h2 | h2 <;> subst h2
  · rw [List.nil_append]
    exact pNum_all ds h3 h4
  · have he : str "-" ++ ds = '-' :: ds := rfl
    rw [he]
    exact pNum_minus ds h3 h4

theorem fullRangeAt_all (l : Str) (h : ∀ c ∈ l, numCl c = true) :
    fullRangeAt l = none := by
  cases l with
  | nil => rfl
  | cons c t =>
    unfold fullRangeAt
    rw [pNum_all (c :: t) (List.cons_ne_nil c t) h]
    rfl

theorem fullRangeSearch_all (l : Str) (h : ∀ c ∈ l, numCl c = true) :
    fullRangeSearch l = none := by
  induction l with
  | nil => rfl
  | cons c t ih =>
    unfold fullRangeSearch
    rw [fullRangeAt_all _ h]
    exact ih (fun c' hm => h c' (List.mem_cons_of_mem _ hm))

theorem fullRangeSearch_bare (sgn ds : Str) (h2 : sgn = [] ∨ sgn = str "-")
    (h3 : ds ≠ []) (h4 : ∀ c ∈ ds, numCl c = true) :
    fullRangeSearch (sgn ++ ds) = none := by
  rcases h2 with h2 | h2 <;> subst h2
  · rw [List.nil_append]
    exact fullRangeSearch_all ds h4
  · have he : str "-" ++ ds = '-' :: ds := rfl
    rw [he]
    unfold fullRangeSearch
    have hAt : fullRangeAt ('-' :: ds) = none := by
      unfold fullRangeAt
      rw [pNum_minus ds h3 h4]
      rfl
    rw [hAt]
    exact fullRangeSearch_all ds h4

theorem rangeStartFM_bare (sgn ds : Str) (h2 : sgn = [] ∨ sgn = str "-")
    (h3 : ds ≠ []) (h4 : ∀ c ∈ ds, numCl c = true) :
    rangeStartFM (sgn ++ ds) = none := by
  unfold rangeStartFM
  rw [pNum_bare sgn ds h2 h3 h4]
  rfl

theorem plainFM_bare (sgn ds : Str) (h2 : sgn = [] ∨ sgn = str "-")
    (h3 : ds ≠ []) (h4 : ∀ c ∈ ds, numCl c = true) :
    plainFM (sgn ++ ds) = some (sgn ++ ds) := by
  unfold plainFM
  rw [pNum_bare sgn ds h2 h3 h4]
  rfl

theorem bare_not_null (sgn ds : Str) (h2 : sgn = [] ∨ sgn = str "-")
    (h3 : ds ≠ []) (h4 : ∀ c ∈ ds, numCl c = true) :
    ¬ (sgn ++ ds = [] ∨ sgn ++ ds = str "-" ∨ sgn ++ ds = str "―" ∨
       sgn ++ ds = str "−" ∨ sgn ++ ds = str "nan" ∨ sgn ++ ds = str "None") := by
  intro hcon
  rcases h2 with h2 | h2 <;> subst h2
  · rw [List.nil_append] at hcon
    cases ds with
    | nil => exact h3 rfl
    | cons d t =>
      have hd : numCl d = true := h4 d (List.mem_cons_self _ _)
      have hbad : ∀ (b : Char) (bt : Str), d :: t = b :: bt →
          numCl b = false → False := by
        intro b bt he hnb
        have := (List.cons.injEq d t b bt).mp he
        rw [this.1] at hd
        rw [hd] at hnb
        exact Bool.noConfusion hnb
      rcases hcon with h | h | h | h | h | h
      · exact List.cons_ne_nil d t h
      · exact hbad '-' [] h (by decide)
      · exact hbad '―' [] h (by decide)
      · exact hbad '−' [] h (by decide)
      · exact hbad 'n' (str "an") h (by decide)
      · exact hbad 'N' (str "one") h (by decide)
  · have he : str "-" ++ ds = '-' :: ds := rfl
    rw [he] at hcon
    rcases hcon with h | h | h | h | h | h
    · exact List.cons_ne_nil '-' ds h
    · exact h3 ((List.cons.injEq '-' ds '-' []).mp h).2
    · exact absurd ((List.cons.injEq '-' ds '―' []).mp h).1 (by decide)
    · exact absurd ((List.cons.injEq '-' ds '−' []).mp h).1 (by decide)
    · exact absurd ((List.cons.injEq '-' ds 'n' (str "an")).mp h).1 (by decide)
    · exact absurd ((List.cons.injEq '-' ds 'N' (str "one")).mp h).1 (by decide)

/-- C3 amended: a cell whose normalized text is a bare number — an
optional minus sign followed by digits/commas/dots, with no percent glyph
(nothing strips one) — is classified as a parsed float when the column's
pending slot is empty and Python `float` accepts the comma-stripped
literal.  (`C3_counterexample` shows a trailing percent glyph defeats the
numeric classification; a non-empty pending slot would instead consume the
number as a range end.) -/
theorem C3_number_amended (raw sgn ds : Str)
    (h1 : pyNorm raw = sgn ++ ds)
    (h2 : sgn = [] ∨ sgn = str "-")
    (h3 : ds ≠ [])
    (h4 : ∀ c ∈ ds, numCl c = true)
    (h5 : floatOk (stripCommas (sgn ++ ds)) = true) :
    classifyCell none raw = (CVal.num (stripCommas (sgn ++ ds)), none, true) := by
  simp only [classifyCell]
  rw [h1]
  rw [if_neg (bare_not_null sgn ds h2 h3 h4)]
  rw [fullRangeSearch_bare sgn ds h2 h3 h4, rangeStartFM_bare sgn ds h2 h3 h4]
  simp only [Option.isSome_none, Bool.and_false, Bool.false_eq_true, if_false]
  rw [plainFM_bare sgn ds h2 h3 h4]
  simp only [Option.isSome_some, Bool.true_and]
  rw [h5]
  simp only [if_true]

theorem C3_number_amended_witness :
    classifyCell none (str "1,234") = (CVal.num (str "1234"), none, true) := by
  have h := C3_number_amended (str "1,234") [] (str "1,234") (by decide)
    (Or.inl rfl) (by decide) (by decide) (by decide)
  rw [h]
  decide

/-- C4: on a data row with no attributed period but meaningful data and at
least one prior record, `processRow` replaces only the most recent record,
by `mergeFields`; that merge fills exactly the fields that are currently
null and non-null in this row, and every previously non-null field of the
latest record is unchanged (`financial_analyzer.py:209-217`). -/
theorem C4_merge_fills_only_null (headers : List Str) (st : ParseState)
    (row : List Str) (rs : List PRec) (r : PRec) (k : Str)
    (hT : (rowPeriod st.queued (rowIsPeriodLabel (pyStrip (row.getD 0 [])))
      (pyStrip (row.getD 0 [])) (rowHasNumericData (row.map pyStrip))).1 = none)
    (hM : (cellLoop headers (row.map pyStrip) st.pending).2.2 = true)
    (hR : st.records = rs ++ [r])
    (hnd : ((cellLoop headers (row.map pyStrip) st.pending).1.map Prod.fst).Nodup) :
    (processRow headers st row).records =
      rs ++ [⟨r.period,
        mergeFields r.fields (cellLoop headers (row.map pyStrip) st.pending).1⟩] ∧
    (dget r.fields k ≠ CVal.null →
      dget (mergeFields r.fields
        (cellLoop headers (row.map pyStrip) st.pending).1) k = dget r.fields k) ∧
    (dget (mergeFields r.fields
        (cellLoop headers (row.map pyStrip) st.pending).1) k ≠ dget r.fields k →
      dget r.fields k = CVal.null ∧
      dget (cellLoop headers (row.map pyStrip) st.pending).1 k ≠ CVal.null ∧
      dget (mergeFields r.fields
        (cellLoop headers (row.map pyStrip) st.pending).1) k =
        dget (cellLoop headers (row.map pyStrip) st.pending).1 k) := by
  refine ⟨?_, fun h => mergeFields_preserve _ _ _ h,
    fun h => mergeFields_change _ _ _ hnd h⟩
  simp only [processRow]
  rw [hT, hM, hR]
  simp only [List.getLast?_concat, List.dropLast_concat, if_true]

def c4headers : List Str := [str "period", str "A"]

def c4st : ParseState :=
  ⟨[⟨str "2024年", [(str "A", CVal.null), (str "B", CVal.num (str "3"))]⟩],
   [], [(str "A", none)]⟩

def c4row : List Str := [str "", str "7"]

theorem C4_merge_fills_only_null_witness :
    (processRow c4headers c4st c4row).records =
      [⟨str "2024年",
        [(str "A", CVal.num (str "7")), (str "B", CVal.num (str "3"))]⟩] := by
  have h := (C4_merge_fills_only_null c4headers c4st c4row []
    ⟨str "2024年", [(str "A", CVal.null), (str "B", CVal.num (str "3"))]⟩
    (str "B") (by decide) (by decide) (by decide) (by decide)).1
  rw [h]
  decide

theorem isSubstr_chars (pat : Str) :
    ∀ l : Str, isSubstr pat l = true → ∀ c ∈ pat, c ∈ l := by
  intro l
  induction l with
  | nil =>
    intro h c hc
    unfold isSubstr at h
    simp only [decide_eq_true_eq] at h
    subst h
    exact absurd hc (List.not_mem_nil c)
  | cons x t ih =>
    intro h c hc
    unfold isSubstr at h
    rcases Bool.or_eq_true_iff.mp h with h1 | h1
    · have hpre := List.isPrefixOf_iff_prefix.mp h1
      exact hpre.subset hc
    · exact List.mem_cons_of_mem _ (ih h1 c hc)

theorem percentOnly_chars (s : Str) (h : percentOnlyFM s = true) :
    ∀ c ∈ s, c = '(' ∨ c = '（' ∨ c = '％' ∨ c = '%' ∨ c = ')' ∨ c = '）' := by
  intro c hc
  unfold percentOnlyFM at h
  cases hd : s.dropWhile (fun c => c = '(' || c = '（') with
  | nil =>
    rw [hd] at h
    simp at h
  | cons c0 t0 =>
    rw [hd] at h
    simp only [Bool.and_eq_true, Bool.or_eq_true, decide_eq_true_eq,
      List.all_eq_true] at h
    have hsplit := List.takeWhile_append_dropWhile
      (p := fun c => c = '(' || c = '（') (l := s)
    rw [← hsplit] at hc
    rcases List.mem_append.mp hc with hm | hm
    · have hp := List.mem_takeWhile_imp hm
      simp only [Bool.or_eq_true, decide_eq_true_eq] at hp
      tauto
    · rw [hd] at hm
      rcases List.mem_cons.mp hm with hm | hm
      · subst hm
        tauto
      · have := h.2 c hm
        tauto

theorem mem_dropWhile_of_mem {p : Char → Bool} :
    ∀ (l : Str) (c : Char), c ∈ l → p c = false → c ∈ l.dropWhile p := by
  intro l
  induction l with
  | nil => intro c hc _; exact absurd hc (List.not_mem_nil c)
  | cons x t ih =>
    intro c hc hp
    rw [List.dropWhile_cons]
    by_cases hx : p x = true
    · rw [if_pos hx]
      rcases List.mem_cons.mp hc with h | h
      · subst h
        rw [hp] at hx
        exact Bool.noConfusion hx
      · exact ih c h hp
    · rw [if_neg hx]
      exact hc

theorem mem_pyStrip (l : Str) (c : Char) (hc : c ∈ l) (hs : pySpace c = false) :
    c ∈ pyStrip l := by
  unfold pyStrip
  rw [List.mem_reverse]
  exact mem_dropWhile_of_mem _ c
    (List.mem_reverse.mpr (mem_dropWhile_of_mem l c hc hs)) hs

theorem replaceSubAux_id (pat rep : Str) :
    ∀ f s, isSubstr pat s = false → replaceSubAux pat rep f s = s := by
  intro f
  induction f with
  | zero => intro s _; rfl
  | succ f ih =>
    intro s h
    cases s with
    | nil => rfl
    | cons c t =>
      unfold isSubstr at h
      rw [Bool.or_eq_false_iff] at h
      rw [replaceSubAux_cons,
        if_neg (fun hcon => absurd hcon.2 (by rw [h.1]; simp)), ih t h.2]

theorem replaceSub_id (pat rep s : Str) (h : isSubstr pat s = false) :
    replaceSub pat rep s = s :=
  replaceSubAux_id pat rep s.length s h

theorem isSuffixOf_append (a b : Str) : b.isSuffixOf (a ++ b) = true := by
  rw [List.isSuffixOf_iff_suffix]
  exact List.suffix_append a b

theorem stripUnitSuffix_mm (b : Str) :
    stripUnitSuffix (b ++ str "_百万円") = b := by
  unfold stripUnitSuffix
  rw [if_pos (isSuffixOf_append b (str "_百万円"))]
  have hl : (b ++ str "_百万円").length = b.length + 4 := by
    rw [List.length_append]
    rfl
  rw [hl, Nat.add_sub_cancel]
  exact List.take_left b (str "_百万円")

/-- Common inheritance step: a column whose concatenated header carries no
currency/per-share unit phrase and is blank-or-suffix-only takes the
previous column's base name with the percent-change suffix, when free. -/
theorem headerName_inherit (df : List (List Str)) (fd : Nat) (acc : List Str)
    (c : Nat) (b : Str)
    (hc : 1 < c)
    (hprev : acc.getLastD [] = b ++ str "_百万円")
    (hfree : (b ++ str "_増減率") ∉ acc)
    (hU : headerUnit (headerConcat df fd c) = ([], headerConcat df fd c))
    (hBr : (decide (cleanOf (headerConcat df fd c) = []) ||
      isSuffixOnlyHeader (headerConcat df fd c)) = true) :
    headerName df fd acc c = b ++ str "_増減率" := by
  simp only [headerName, hU]
  rw [if_pos hBr, if_pos hc]
  rw [if_pos (show ¬ (isSubstr (str "増減率") ([] : Str) = true) by decide)]
  simp only [if_true]
  have hdec : decide (¬ (isSubstr (str "増減率") (str "_増減率") = true)) = false := by
    decide
  rw [hdec, Bool.and_false]
  rw [if_neg (by simp)]
  rw [hprev, stripUnitSuffix_mm]
  unfold resolveName
  rw [if_neg hfree]

theorem rowPeriod_label_only (q : List Str) (lbl : Str) :
    rowPeriod q true lbl false = (none, q ++ [lbl]) := by
  simp [rowPeriod]

theorem rowPeriod_pop (lbl : Str) (isP : Bool) (l : Str) (rest : List Str) :
    rowPeriod (l :: rest) isP lbl true =
      (some l, rest ++ if isP then [lbl] else []) := by
  simp [rowPeriod]

/-- C6: FIFO period attribution (`financial_analyzer.py:128-138`).
A label-only row (period label, no numeric data) emits no record and
appends its label to the back of the queue; a numeric-bearing row with a
non-empty queue is attributed the oldest queued label `l` as its period —
its record, when any non-null value exists, is `⟨l, parsed⟩` — and, when
that row is itself a period label, its own label goes to the back of the
queue. -/
theorem C6_period_queue_fifo (headers : List Str) (st : ParseState)
    (row : List Str) :
    ((rowIsPeriodLabel (pyStrip (row.getD 0 [])) = true ∧
      rowHasNumericData (row.map pyStrip) = false) →
      (processRow headers st row).queued =
        st.queued ++ [pyStrip (row.getD 0 [])] ∧
      (processRow headers st row).records.length = st.records.length) ∧
    (∀ l rest, rowHasNumericData (row.map pyStrip) = true →
      st.queued = l :: rest →
      (processRow headers st row).queued =
        rest ++ (if rowIsPeriodLabel (pyStrip (row.getD 0 [])) then
          [pyStrip (row.getD 0 [])] else []) ∧
      (processRow headers st row).records =
        (if (cellLoop headers (row.map pyStrip) st.pending).1.any
            (fun p => p.1 ≠ str "period" ∧ p.2 ≠ CVal.null) then
          st.records ++ [⟨l, (cellLoop headers (row.map pyStrip) st.pending).1⟩]
        else st.records)) := by
  constructor
  · rintro ⟨hP, hN⟩
    simp only [processRow]
    rw [hP, hN, rowPeriod_label_only]
    refine ⟨rfl, ?_⟩
    by_cases hm : (cellLoop headers (row.map pyStrip) st.pending).2.2 = true
    · rw [hm]
      simp only [if_true]
      cases hLast : st.records.getLast? with
      | none => rfl
      | some r =>
        have hne : st.records ≠ [] := by
          intro h0
          rw [h0] at hLast
          exact Option.noConfusion hLast
        have hpos : 0 < st.records.length := List.length_pos.mpr hne
        simp [List.length_dropLast]
        omega
    · rw [if_neg hm]
  · intro l rest hN hq
    simp only [processRow]
    rw [hN, hq, rowPeriod_pop]
    exact ⟨rfl, rfl⟩

theorem C6_period_queue_fifo_witness :
    (processRow [str "period", str "A"]
        ⟨[], [str "2023年3月期"], [(str "A", none)]⟩ [[], str "900"]).records =
      [⟨str "2023年3月期", [(str "A", CVal.num (str "900"))]⟩] ∧
    (processRow [str "period", str "A"]
        ⟨[], [str "2023年3月期"], [(str "A", none)]⟩ [[], str "900"]).queued = [] := by
  have h := (C6_period_queue_fifo [str "period", str "A"]
    ⟨[], [str "2023年3月期"], [(str "A", none)]⟩ [[], str "900"]).2
    (str "2023年3月期") [] (by decide) (by decide)
  refine ⟨?_, ?_⟩
  · rw [h.1.symm] at *
    rw [h.2]
    decide
  · rw [h.1]
    decide

/-- Decimal value of a digit string (proof device for the injectivity of
`natLit`). -/
def valOf (l : Str) : Nat := l.foldl (fun a c => 10 * a + (c.toNat - 48)) 0

theorem valOf_append_digit (l : Str) (c : Char) :
    valOf (l ++ [c]) = 10 * valOf l + (c.toNat - 48) := by
  unfold valOf
  rw [List.foldl_append]
  rfl

theorem digitChar_round : ∀ d, d < 10 → (digitChar d).toNat - 48 = d := by decide

theorem valOf_natLitAux : ∀ f n, n ≤ f → valOf (natLitAux f n) = n := by
  intro f
  induction f with
  | zero =>
    intro n h
    have : n = 0 := Nat.le_zero.mp h
    subst this
    rfl
  | succ f ih =>
    intro n h
    by_cases h0 : n = 0
    · subst h0; rfl
    · have hstep : natLitAux (f + 1) n =
          natLitAux f (n / 10) ++ [digitChar (n % 10)] := by
        simp only [natLitAux, if_neg h0]
      have hdiv : n / 10 ≤ f := by
        have := Nat.div_lt_self (Nat.pos_of_ne_zero h0) (by norm_num : 1 < 10)
        omega
      have hmod : n % 10 < 10 := Nat.mod_lt _ (by norm_num)
      rw [hstep, valOf_append_digit, ih _ hdiv, digitChar_round _ hmod]
      omega

theorem valOf_natLit (n : Nat) : valOf (natLit n) = n := by
  by_cases h0 : n = 0
  · subst h0; rfl
  · unfold natLit
    rw [if_neg h0]
    exact valOf_natLitAux (n + 1) n (by omega)

theorem natLit_inj : Function.Injective natLit := by
  intro m n h
  rw [← valOf_natLit m, ← valOf_natLit n, h]

theorem candName_inj (orig : Str) : Function.Injective (candName orig) := by
  intro a b h
  unfold candName at h
  exact natLit_inj (List.append_cancel_left h)

theorem exists_candName_free (orig : Str) (used : List Str) :
    ∃ j, 1 ≤ j ∧ j < used.length + 2 ∧ candName orig j ∉ used := by
  by_contra hcon
  push_neg at hcon
  have hsub : ((List.range' 1 (used.length + 1)).map (candName orig)) ⊆ used := by
    intro x hx
    obtain ⟨j, hj, rfl⟩ := List.mem_map.mp hx
    rw [List.mem_range'_1] at hj
    exact hcon j hj.1 (by omega)
  have hnd : ((List.range' 1 (used.length + 1)).map (candName orig)).Nodup :=
    (List.nodup_range' _ _).map (candName_inj orig)
  have hle := (hnd.subperm hsub).length_le
  rw [List.length_map, List.length_range'] at hle
  omega

theorem resolveGo_spec (orig : Str) (used : List Str) :
    ∀ f k, (∃ j, k ≤ j ∧ j < k + f ∧ candName orig j ∉ used) →
      resolveGo orig used f k ∉ used := by
  intro f
  induction f with
  | zero =>
    intro k h
    obtain ⟨j, h1, h2, _⟩ := h
    omega
  | succ f ih =>
    intro k h
    obtain ⟨j, h1, h2, h3⟩ := h
    unfold resolveGo
    by_cases hk : candName orig k ∈ used
    · rw [if_pos hk]
      apply ih
      refine ⟨j, ?_, by omega, h3⟩
      rcases Nat.eq_or_lt_of_le h1 with he | hl
      · exact absurd (he ▸ hk) h3
      · omega
    · rw [if_neg hk]
      exact hk

theorem resolveName_not_mem (orig : Str) (used : List Str) :
    resolveName orig used ∉ used := by
  unfold resolveName
  by_cases h : orig ∈ used
  · rw [if_pos h]
    apply resolveGo_spec
    obtain ⟨j, h1, h2, h3⟩ := exists_candName_free orig used
    exact ⟨j, h1, by omega, h3⟩
  · rw [if_neg h]
    exact h

theorem headerName_not_mem (df : List (List Str)) (fd : Nat) (acc : List Str)
    (c : Nat) : headerName df fd acc c ∉ acc := by
  unfold headerName
  exact resolveName_not_mem _ _

/-- C7: header reconstruction never produces two equal final column names:
each candidate is disambiguated against all names assigned so far
(`financial_analyzer.py:103-109`), so the full list — the reserved
`'period'` included — is duplicate-free. -/
theorem C7_headers_nodup (df : List (List Str)) (fd ncols : Nat) :
    (buildHeaders df fd ncols).Nodup := by
  unfold buildHeaders
  have hgen : ∀ (L : List Nat) (acc : List Str), acc.Nodup →
      (L.foldl (fun acc c => acc ++ [headerName df fd acc c]) acc).Nodup := by
    intro L
    induction L with
    | nil => intro acc h; exact h
    | cons c L' ih =>
      intro acc h
      rw [List.foldl_cons]
      apply ih
      rw [List.nodup_append]
      refine ⟨h, List.nodup_singleton _, ?_⟩
      intro a ha hb
      rw [List.mem_singleton] at hb
      subst hb
      exact headerName_not_mem df fd acc c ha
  exact hgen _ _ (List.nodup_singleton _)

theorem getD_mem_drop (headers : List Str) (j : Nat) (h1 : 1 ≤ j)
    (h2 : j < headers.length) : headers.getD j [] ∈ headers.drop 1 := by
  rw [List.getD_eq_getElem headers [] h2]
  have hj : j - 1 < (headers.drop 1).length := by
    rw [List.length_drop]
    omega
  have he : (headers.drop 1)[j - 1] = headers[j] := by
    rw [List.getElem_drop]
    congr 1
    omega
  rw [← he]
  exact List.getElem_mem hj

theorem cellStep_keys (headers cells : List Str)
    (st : List (Str × CVal) × List (Str × Option Str) × Bool) (j : Nat)
    (hj1 : 1 ≤ j)
    (hinv : ∀ x ∈ st.1.map Prod.fst, x ∈ headers.drop 1) :
    ∀ x ∈ (cellStep headers cells st j).1.map Prod.fst, x ∈ headers.drop 1 := by
  intro x hx
  unfold cellStep at hx
  by_cases hj : j < headers.length
  · rw [if_pos hj] at hx
    rcases aset_keys_subset _ _ _ x hx with h | h
    · rw [h]
      exact getD_mem_drop headers j hj1 hj
    · exact hinv x h
  · rw [if_neg hj] at hx
    exact hinv x hx

theorem cellLoop_keys_go (headers cells : List Str) :
    ∀ (L : List Nat) (st : List (Str × CVal) × List (Str × Option Str) × Bool),
      (∀ j ∈ L, 1 ≤ j) →
      (∀ x ∈ st.1.map Prod.fst, x ∈ headers.drop 1) →
      ∀ x ∈ ((L.foldl (cellStep headers cells) st).1.map Prod.fst),
        x ∈ headers.drop 1 := by
  intro L
  induction L with
  | nil => intro st _ hinv; exact hinv
  | cons j L' ih =>
    intro st hL hinv
    rw [List.foldl_cons]
    exact ih _ (fun j' hm => hL j' (List.mem_cons_of_mem _ hm))
      (cellStep_keys headers cells st j (hL j (List.mem_cons_self _ _)) hinv)

/-- Every key of this row's parsed data is a reconstructed (non-period)
header name: cells at column indices outside the header list are skipped. -/
theorem cellLoop_keys (headers cells : List Str)
    (pend : List (Str × Option Str)) :
    ∀ x ∈ ((cellLoop headers cells pend).1.map Prod.fst), x ∈ headers.drop 1 := by
  unfold cellLoop
  apply cellLoop_keys_go
  · intro j hm
    rw [List.mem_range'_1] at hm
    exact hm.1
  · intro x hx
    exact absurd hx (List.not_mem_nil x)

theorem mergeStep_keys (fs : List (Str × CVal)) (hv : Str × CVal) :
    ∀ x ∈ (mergeStep fs hv).map Prod.fst, x ∈ fs.map Prod.fst ∨ x = hv.1 := by
  intro x hx
  unfold mergeStep at hx
  split_ifs at hx with h1 h2
  · exact Or.inl hx
  · rcases aset_keys_subset _ _ _ x hx with h | h
    · exact Or.inr h
    · exact Or.inl h
  · exact Or.inl hx

theorem mergeFields_keys (parsed : List (Str × CVal)) :
    ∀ (fs : List (Str × CVal)), ∀ x ∈ (mergeFields fs parsed).map Prod.fst,
      x ∈ fs.map Prod.fst ∨ x ∈ parsed.map Prod.fst := by
  induction parsed with
  | nil => intro fs x hx; exact Or.inl hx
  | cons hv tl ih =>
    intro fs x hx
    rw [mergeFields_cons] at hx
    rcases ih (mergeStep fs hv) x hx with h | h
    · rcases mergeStep_keys fs hv x h with h1 | h1
      · exact Or.inl h1
      · refine Or.inr ?_
        rw [List.map_cons, h1]
        exact List.mem_cons_self _ _
    · refine Or.inr ?_
      rw [List.map_cons]
      exact List.mem_cons_of_mem _ h

/-- Invariant: every metric key of every record is a non-period header. -/
def recKeysOk (headers : List Str) (rs : List PRec) : Prop :=
  ∀ r ∈ rs, ∀ x ∈ r.fields.map Prod.fst, x ∈ headers.drop 1

theorem processRow_keys (headers : List Str) (st : ParseState)
    (row : List Str) (hinv : recKeysOk headers st.records) :
    recKeysOk headers (processRow headers st row).records := by
  intro r hr x hx
  cases hT : (rowPeriod st.queued (rowIsPeriodLabel (pyStrip (row.getD 0 [])))
      (pyStrip (row.getD 0 [])) (rowHasNumericData (row.map pyStrip))).1 with
  | some t =>
    simp only [processRow, hT] at hr
    split_ifs at hr with hAny
    · rcases List.mem_append.mp hr with h | h
      · exact hinv r h x hx
      · rw [List.mem_singleton] at h
        subst h
        exact cellLoop_keys headers (row.map pyStrip) st.pending x hx
    · exact hinv r hr x hx
  | none =>
    simp only [processRow, hT] at hr
    split_ifs at hr with hM
    · cases hLast : st.records.getLast? with
      | none =>
        simp only [hLast] at hr
        exact hinv r hr x hx
      | some r0 =>
        simp only [hLast] at hr
        rcases List.mem_append.mp hr with h | h
        · exact hinv r ((List.dropLast_sublist st.records).subset h) x hx
        · rw [List.mem_singleton] at h
          subst h
          rcases mergeFields_keys _ r0.fields x hx with h | h
          · exact hinv r0 (List.mem_of_mem_getLast? hLast) x h
          · exact cellLoop_keys headers (row.map pyStrip) st.pending x h
    · exact hinv r hr x hx

theorem runRows_keys (headers : List Str) (rows : List (List Str)) :
    recKeysOk headers (runRowsState headers rows).records := by
  unfold runRowsState
  have hgen : ∀ (rows : List (List Str)) (st : ParseState),
      recKeysOk headers st.records →
      recKeysOk headers (rows.foldl (processRow headers) st).records := by
    intro rows
    induction rows with
    | nil => intro st h; exact h
    | cons row rows' ih =>
      intro st h
      rw [List.foldl_cons]
      exact ih _ (processRow_keys headers st row h)
  apply hgen
  intro r hr
  exact absurd hr (List.not_mem_nil r)

/-- C10: cells at column indices at or beyond the reconstructed header
list are ignored entirely (`financial_analyzer.py:143-146`): every metric
key of every emitted record is one of the reconstructed non-period header
names, even on ragged grids whose data rows are longer than the header
rows. -/
theorem C10_extra_cells_ignored (ncols : Nat) (df : List (List Str))
    (i : Nat) (r : PRec) (h : Str)
    (hi : parseFirstDataRow ncols df = some i)
    (hr : r ∈ parse_financial_table ncols df)
    (hh : h ∈ r.fields.map Prod.fst) :
    h ∈ (buildHeaders df i ncols).drop 1 := by
  unfold parse_financial_table at hr
  split_ifs at hr with hemp
  · exact absurd hr (List.not_mem_nil r)
  · rw [hi] at hr
    exact runRows_keys (buildHeaders df i ncols) (df.drop i) r hr h hh

def c10grid : List (List Str) :=
  [[str "", str "A"], [str "2024年", str "1", str "9", str "8"]]

theorem C10_extra_cells_ignored_witness :
    str "A" ∈ (buildHeaders c10grid 1 2).drop 1 :=
  C10_extra_cells_ignored 2 c10grid 1
    ⟨str "2024年", [(str "A", CVal.num (str "1"))]⟩ (str "A")
    (by decide) (by decide) (by decide)

/-- Five-column grid for C5: column 2 (header `(%)`) already takes the
name `Revenue_増減率`; column 4 (header `(%)`, predecessor
`Revenue_百万円`) must then be disambiguated. -/
def c5grid : List (List Str) :=
  [[str "", str "Revenue", str "(%)", str "Revenue百万円", str "(%)"],
   [str "2024年", str "1", str "2", str "3", str "4"]]

/-- C5 counterexample: the reconstructed name of a blank/percent-only
column whose predecessor is `Revenue_百万円` is NOT always
`Revenue_増減率`: when an earlier column already received that name, the
collision loop (`financial_analyzer.py:105-108`) appends `_1`, so column 4
of `c5grid` gets `Revenue_増減率_1`. -/
theorem C5_counterexample :
    parseFirstDataRow 5 c5grid = some 1 ∧
    buildHeaders c5grid 1 5 =
      [str "period", str "Revenue", str "Revenue_増減率",
       str "Revenue_百万円", str "Revenue_増減率_1"] ∧
    str "Revenue_増減率_1" ≠ str "Revenue" ++ str "_増減率" := by decide

/-- C5 amended: a column whose concatenated header text is empty, or a
pure percent marker (possibly parenthesized), or exactly a rate-of-change
keyword, and whose immediate predecessor received the final name
`base ++ "_百万円"`, is reconstructed as `base ++ "_増減率"` — provided
that name is not already among the previously assigned names (otherwise
the collision loop appends a numeric suffix, see `C5_counterexample`). -/
theorem C5_inherit_amended (df : List (List Str)) (fd : Nat) (acc : List Str)
    (c : Nat) (b : Str)
    (hc : 1 < c)
    (hprev : acc.getLastD [] = b ++ str "_百万円")
    (hfull : headerConcat df fd c = [] ∨
      percentOnlyFM (pyStrip (headerConcat df fd c)) = true ∨
      headerConcat df fd c ∈ [str "増減率", str "前年比", str "対前年",
        str "同増減", str "対前期"])
    (hfree : (b ++ str "_増減率") ∉ acc) :
    headerName df fd acc c = b ++ str "_増減率" := by
  rcases hfull with hfe | hp | hk
  · apply headerName_inherit df fd acc c b hc hprev hfree
    · rw [hfe]
      decide
    · rw [hfe]
      decide
  · have hmm_s : isSubstr (str "百万円") (headerConcat df fd c) = false := by
      cases hi : isSubstr (str "百万円") (headerConcat df fd c)
      · rfl
      · exfalso
        have hcf : '百' ∈ headerConcat df fd c :=
          isSubstr_chars _ _ hi '百' (by decide)
        have hcs : '百' ∈ pyStrip (headerConcat df fd c) :=
          mem_pyStrip _ _ hcf (by decide)
        rcases percentOnly_chars _ hp '百' hcs with h|h|h|h|h|h <;>
          exact absurd h (by decide)
    have hys_s : isSubstr (str "円銭") (headerConcat df fd c) = false := by
      cases hi : isSubstr (str "円銭") (headerConcat df fd c)
      · rfl
      · exfalso
        have hcf : '円' ∈ headerConcat df fd c :=
          isSubstr_chars _ _ hi '円' (by decide)
        have hcs : '円' ∈ pyStrip (headerConcat df fd c) :=
          mem_pyStrip _ _ hcf (by decide)
        rcases percentOnly_chars _ hp '円' hcs with h|h|h|h|h|h <;>
          exact absurd h (by decide)
    apply headerName_inherit df fd acc c b hc hprev hfree
    · unfold headerUnit
      rw [if_neg (by rw [hmm_s]; simp), if_neg (by rw [hys_s]; simp)]
    · unfold isSuffixOnlyHeader
      rw [hp]
      simp
  · simp only [List.mem_cons, List.not_mem_nil, or_false] at hk
    rcases hk with hk | hk | hk | hk | hk <;>
      (apply headerName_inherit df fd acc c b hc hprev hfree <;> rw [hk] <;> decide)

theorem C5_inherit_amended_witness :
    headerName [[str "", str "x", str "(%)"]] 1
      [str "period", str "Revenue_百万円"] 2 = str "Revenue" ++ str "_増減率" :=
  C5_inherit_amended [[str "", str "x", str "(%)"]] 1
    [str "period", str "Revenue_百万円"] 2 (str "Revenue")
    (by decide) (by decide) (Or.inr (Or.inl (by decide))) (by decide)

/-- C9: multiline expansion deletes every occurrence of the literal
substring `"None"` from a cell before splitting on line breaks
(`pdf_parser.py:160`): a cell that is exactly `"None"` becomes empty (and
the row collapses), a cell containing `"None"` inside a longer word loses
those four characters, and the removal eats a leading `"None"` of any cell
text. -/
theorem C9_none_removed_before_split :
    expand_multiline_table [[str "None"]] = [] ∧
    expand_multiline_table [[str "Nonexistent"]] = [[str "xistent"]] ∧
    ∀ t : Str, replaceSub (str "None") [] (str "None" ++ t) =
      replaceSub (str "None") [] t :=
  ⟨by decide, by decide, stripNone_drop_leading⟩
example : pyStrip (str "  ab　") = str "ab" := by decide
example : replaceSub (str "None") [] (str "Nonexistent") = str "xistent" := by decide
example : splitNl (str "a\nb") = [str "a", str "b"] := by decide
example : isSubstr (str "百万円") (str "売上高(百万円)") = true := by decide
